import Mathlib

/-!
Shallow embedding of `src/ppt.py` (README → PowerPoint converter).

Strings are modelled as `List Char` (Python `str` is a sequence of Unicode
code points).  Each Python helper is embedded as an executable Lean
definition mirroring the source line by line; the slide-producing calls of
`generate_ppt_from_readme` are reified into a `Slide` datatype since the
actual rendering library only appends slides in order.

Note: the source file on disk is double-encoded UTF-8, so the bullet
character class of `extract_key_points` is literally the five characters
`-`, `*`, U+00E2, U+20AC, U+00A2, and the emoji-strip target in
`generate_ppt_from_readme` is the four-character string
U+011F U+0178 U+0161 U+20AC.  The embedding reproduces those exact
code points.
-/

namespace Ppt

abbrev PyStr := List Char

/-- Python `str.isspace`-style whitespace set used by `\s` (ASCII part,
which is all the source ever feeds it). -/
def pyIsSpace (c : Char) : Bool :=
  c = ' ' || c = '\t' || c = '\n' || c = '\x0d' || c = '\x0b' || c = '\x0c'

/-- Python `str.strip()`: remove leading and trailing whitespace. -/
def pyStrip (s : PyStr) : PyStr :=
  ((s.dropWhile pyIsSpace).reverse.dropWhile pyIsSpace).reverse

/-- Python `str.strip(ch)`: remove leading and trailing copies of the
character `ch`. -/
def pyStripChar (ch : Char) (s : PyStr) : PyStr :=
  ((s.dropWhile (· = ch)).reverse.dropWhile (· = ch)).reverse

/-- Python `str.lower()` (ASCII case folding suffices for the allow-list
titles used by the program). -/
def pyLower (s : PyStr) : PyStr := s.map Char.toLower

/-- Python `str.split(sep)` for a single-character separator: never returns
an empty list; splitting the empty string yields `[[]]`. -/
def pySplitChar (sep : Char) : PyStr → List PyStr
  | [] => [[]]
  | c :: t =>
    if c = sep then [] :: pySplitChar sep t
    else
      match pySplitChar sep t with
      | [] => [[c]]
      | h :: r => (c :: h) :: r

/-- Embeds `'\n'.join` of a list of lines. -/
def joinLines (ls : List PyStr) : PyStr :=
  (ls.intersperse ['\n']).flatten

/-- Python `sub in s` (substring containment). -/
def containsSub (pat : PyStr) : PyStr → Bool
  | [] => pat.isPrefixOf []
  | c :: t => pat.isPrefixOf (c :: t) || containsSub pat t

/-- Leftmost occurrence of `pat` in `s`: returns the text before the
occurrence and the text after it. -/
def splitOnce (pat : PyStr) : PyStr → Option (PyStr × PyStr)
  | [] => if pat.isPrefixOf [] then some ([], []) else none
  | c :: t =>
    if pat.isPrefixOf (c :: t) then some ([], (c :: t).drop pat.length)
    else (splitOnce pat t).map (fun p => (c :: p.1, p.2))

/-- Backtick character (U+0060). -/
def btick : Char := Char.ofNat 96

/-- Embeds `re.sub(opn + '(.*?)' + cls, group 1, s)` for literal nonempty
delimiters `opn`, `cls`: scanning left to right, each occurrence of
`opn …minimal… cls` is replaced by the minimal middle text; an opening
with no closing is skipped one character at a time, exactly as the
regex engine advances its start position.  The `fuel` argument only
makes the recursion structural: every recursive call strictly shrinks
the string (the closing delimiter is nonempty), so with
`fuel = s.length` the fuel never runs out. -/
def subPairAux (opn cls : PyStr) : Nat → PyStr → PyStr
  | _, [] => []
  | 0, s => s
  | fuel + 1, c :: t =>
    if opn.isPrefixOf (c :: t) then
      match splitOnce cls ((c :: t).drop opn.length) with
      | some (grp, aft) => grp ++ subPairAux opn cls fuel aft
      | none => c :: subPairAux opn cls fuel t
    else c :: subPairAux opn cls fuel t

def subPair (opn cls s : PyStr) : PyStr := subPairAux opn cls s.length s

/-- The link-pattern helper: after an opening `[`, find the minimal
`(.*?)` group closed by `](`, then the minimal href closed by `)`.
Mirrors the backtracking of `\[(.*?)\]\(.*?\)`: if the text after the
first `](` contains no `)`, no later `](` can succeed either (its
remainder is a suffix of a `)`-free string), so the whole attempt at
this start position fails and the engine moves one character ahead. -/
def tryLink (t : PyStr) : Option (PyStr × PyStr) :=
  match splitOnce [']', '('] t with
  | none => none
  | some (grp, r) =>
    match splitOnce [')'] r with
    | none => none
    | some (_, aft) => some (grp, aft)

/-- Embeds `re.sub(r'\[(.*?)\]\(.*?\)', group 1, s)` (fuel as in `subPairAux`). -/
def subLinkAux : Nat → PyStr → PyStr
  | _, [] => []
  | 0, s => s
  | fuel + 1, c :: t =>
    if c = '[' then
      match tryLink t with
      | some (grp, aft) => grp ++ subLinkAux fuel aft
      | none => c :: subLinkAux fuel t
    else c :: subLinkAux fuel t

def subLink (s : PyStr) : PyStr := subLinkAux s.length s

/-! ### `extract_key_points` (src/ppt.py lines 47-77) -/

/-- The bullet glyph class `[-*â€¢]` exactly as the (double-encoded)
source has it: `-`, `*`, U+00E2, U+20AC, U+00A2. -/
def bulletChars : List Char :=
  ['-', '*', Char.ofNat 0xE2, Char.ofNat 0x20AC, Char.ofNat 0xA2]

/-- The `\s*(.+)$` tail shared by both line patterns: greedy `\s*`, then
`(.+)` takes the rest; if nothing is left, `\s*` backtracks one
character so that `(.+)` captures the final whitespace character. -/
def tailGroup (r : PyStr) : Option PyStr :=
  match r.dropWhile pyIsSpace, r.getLast? with
  | [], some lastc => some [lastc]
  | [], none => none
  | t, _ => some t

/-- Embeds `re.match(r'^[\s]*[-*â€¢]\s*(.+)$', line)`, returning group 1. -/
def bulletMatch (line : PyStr) : Option PyStr :=
  match line.dropWhile pyIsSpace with
  | [] => none
  | c :: r => if bulletChars.contains c then tailGroup r else none

/-- Embeds `re.match(r'^[\s]*\d+\.\s*(.+)$', line)`, returning group 1. -/
def numberedMatch (line : PyStr) : Option PyStr :=
  let rest := line.dropWhile pyIsSpace
  if (rest.takeWhile Char.isDigit) = [] then none
  else
    match rest.dropWhile Char.isDigit with
    | '.' :: r => tailGroup r
    | _ => none

/-- The four clean-up substitutions applied to a matched point:
`strip()`, then bold `\*\*(.*?)\*\*`, italic `\*(.*?)\*`,
code `` `(.*?)` ``, links `\[(.*?)\]\(.*?\)`, each replaced by
its group 1. -/
def cleanPoint (p : PyStr) : PyStr :=
  subLink (subPair [btick] [btick]
    (subPair ['*'] ['*']
      (subPair ['*', '*'] ['*', '*'] (pyStrip p))))

/-- The full point list gathered by `extract_key_points` before the
final `[:8]` truncation: one pass appending every bullet match, then a
second pass appending every numbered match. -/
def extract_key_points_raw (content : PyStr) : List PyStr :=
  let lines := pySplitChar '\n' content
  let points := lines.foldl
    (fun acc line => acc ++ ((bulletMatch line).map cleanPoint).toList) []
  lines.foldl
    (fun acc line => acc ++ ((numberedMatch line).map cleanPoint).toList) points

/-- Embeds `extract_key_points` (src/ppt.py line 47): the gathered points,
truncated to the first 8. -/
def extract_key_points (content : PyStr) : List PyStr :=
  (extract_key_points_raw content).take 8

/-! ### `extract_code_blocks` (src/ppt.py lines 79-104) -/

structure CodeBlock where
  language : PyStr
  code : PyStr
deriving DecidableEq, Repr

/-- Embeds `line.strip().startswith('```' + '')`: a fence line. -/
def isFenceLine (l : PyStr) : Bool :=
  [btick, btick, btick].isPrefixOf (pyStrip l)

/-- Embeds `line.strip('`').strip() or 'text'`: the language tag taken from an
opening fence line. -/
def langOf (l : PyStr) : PyStr :=
  let x := pyStrip (pyStripChar btick l)
  if x = [] then ['t', 'e', 'x', 't'] else x

/-- The fold of `extract_code_blocks`: state is
(`in_code_block`, `current_code`, `current_language`). -/
def ecbAux : List PyStr → Bool → List PyStr → PyStr → List CodeBlock
  | [], _, _, _ => []
  | l :: rest, inB, cur, lang =>
    if isFenceLine l then
      if inB then ⟨lang, joinLines cur⟩ :: ecbAux rest false [] lang
      else ecbAux rest true [] (langOf l)
    else if inB then ecbAux rest true (cur ++ [l]) lang
    else ecbAux rest false cur lang

def extract_code_blocks (content : PyStr) : List CodeBlock :=
  ecbAux (pySplitChar '\n' content) false [] []

/-! ### `parse_readme_content` (src/ppt.py lines 11-45) -/

structure Section where
  title : PyStr
  contentLines : List PyStr
deriving DecidableEq, Repr

/-- Embeds `'\n'.join(current_content)`: the stored section body. -/
def Section.content (s : Section) : PyStr := joinLines s.contentLines

/-- Embeds `current_section.count('#')`: the stored `level` value, computed by
the source from the already-`#`-stripped title. -/
def Section.level (s : Section) : Nat := s.title.count '#'

/-- Embeds `line.startswith('# ') or line.startswith('## ')`. -/
def isHeadingLine (l : PyStr) : Bool :=
  ['#', ' '].isPrefixOf l || ['#', '#', ' '].isPrefixOf l

/-- Embeds `line.strip('#').strip()`: the new section title. -/
def headingTitle (l : PyStr) : PyStr := pyStrip (pyStripChar '#' l)

/-- The loop of `parse_readme_content`: state is
(`current_section`, `current_content`).  Note the Python truthiness
tests `if current_section:` — a section whose stripped title is the
empty string is never saved, and lines under it are never accumulated. -/
def parseAux : List PyStr → Option PyStr → List PyStr → List Section
  | [], cur, acc =>
    match cur with
    | some t => if t ≠ [] then [⟨t, acc⟩] else []
    | none => []
  | l :: rest, cur, acc =>
    if isHeadingLine l then
      (match cur with
       | some t => if t ≠ [] then [(⟨t, acc⟩ : Section)] else []
       | none => []) ++ parseAux rest (some (headingTitle l)) []
    else
      match cur with
      | some t =>
        if t ≠ [] then parseAux rest (some t) (acc ++ [l])
        else parseAux rest (some t) acc
      | none => parseAux rest none acc

def parse_readme_content (content : PyStr) : List Section :=
  parseAux (pySplitChar '\n' content) none []

/-! ### table parsing inside `create_table_slide` (src/ppt.py 174-181) -/

/-- Embeds `line.strip().startswith('|---')`. -/
def isSepLine (l : PyStr) : Bool :=
  ['|', '-', '-', '-'].isPrefixOf (pyStrip l)

/-- Embeds `[cell.strip() for cell in line.split('|')[1:-1]]`. -/
def rowCells (l : PyStr) : List PyStr :=
  (((pySplitChar '|' l).drop 1).dropLast).map pyStrip

/-- One iteration of the row-collecting loop of `create_table_slide`:
a line containing a pipe that is not a `|---`-separator line contributes
its cells, and rows with zero cells are dropped. -/
def tableRowOf (l : PyStr) : Option (List PyStr) :=
  if l.contains '|' && !(isSepLine l) then
    let row := rowCells l
    if row ≠ [] then some row else none
  else none

/-- The rows collected by `create_table_slide` from the section body. -/
def tableData (data : PyStr) : List (List PyStr) :=
  (pySplitChar '\n' data).filterMap tableRowOf

/-! ### the slide plan (`generate_ppt_from_readme`, src/ppt.py 235-308)

The rendering library is only ever asked to append slides in order, so
the generated deck is reified as a list of `Slide` records. -/

inductive Slide where
  | title (t sub : PyStr)
  | bullets (t : PyStr) (pts : List PyStr)
  | text (t : PyStr) (body : PyStr)
  | table (t : PyStr) (grid : Option (List (List PyStr)))
  | code (t : PyStr) (code : PyStr)
deriving DecidableEq, Repr

/-- Embeds `create_table_slide` (src/ppt.py line 161): always appends a slide
with the given title; the table grid itself is only added when at least
two rows were parsed. -/
def create_table_slide (t data : PyStr) : Slide :=
  let td := tableData data
  Slide.table t (if 1 < td.length then some td else none)

/-- Python `str.title()`: uppercase a letter when the previous character
is not a letter, lowercase it otherwise. -/
def pyTitleAux : Bool → PyStr → PyStr
  | _, [] => []
  | prevAlpha, c :: t =>
    (if c.isAlpha then (if prevAlpha then c.toLower else c.toUpper) else c)
      :: pyTitleAux c.isAlpha t

def pyTitle (s : PyStr) : PyStr := pyTitleAux false s

/-- Embeds `re.sub(r'```.*?```', '', content, flags=re.DOTALL)` (fuel as in
`subPairAux`; replacement is empty, not the group). -/
def subFenceDropAux : Nat → PyStr → PyStr
  | _, [] => []
  | 0, s => s
  | fuel + 1, c :: t =>
    if [btick, btick, btick].isPrefixOf (c :: t) then
      match splitOnce [btick, btick, btick] ((c :: t).drop 3) with
      | some (_, aft) => subFenceDropAux fuel aft
      | none => c :: subFenceDropAux fuel t
    else c :: subFenceDropAux fuel t

def subFenceDrop (s : PyStr) : PyStr := subFenceDropAux s.length s

/-- Embeds `re.sub(r'\[.*?\]\(.*?\)', '', s)` (same matching as `subLink`,
empty replacement). -/
def subLinkDropAux : Nat → PyStr → PyStr
  | _, [] => []
  | 0, s => s
  | fuel + 1, c :: t =>
    if c = '[' then
      match tryLink t with
      | some (_, aft) => subLinkDropAux fuel aft
      | none => c :: subLinkDropAux fuel t
    else c :: subLinkDropAux fuel t

def subLinkDrop (s : PyStr) : PyStr := subLinkDropAux s.length s

/-- Embeds `' '.join`. -/
def joinSpaces (ls : List PyStr) : PyStr := (ls.intersperse [' ']).flatten

/-- The free-text fallback of the section loop: strip fenced code, link
syntax and `[#*`]` characters, take the non-blank stripped lines, and
preview the first three (with an ellipsis when more existed). -/
def previewOf (content : PyStr) : PyStr :=
  let c1 := subFenceDrop content
  let c2 := subLinkDrop c1
  let c3 := c2.filter (fun c => !(c = '#' || c = '*' || c = btick))
  let lines := ((pySplitChar '\n' c3).map pyStrip).filter (fun l => l ≠ [])
  if 3 < lines.length then
    joinSpaces (lines.take 3) ++ ['.', '.', '.']
  else joinSpaces lines

def allowlist : List PyStr :=
  [("api endpoints").toList, ("core components").toList,
   ("project structure").toList]

def defaultPoint : PyStr := ("Content details in documentation").toList

/-- The body of the per-section loop of `generate_ppt_from_readme`
(src/ppt.py lines 258-300): the slides appended for one section. -/
def planSection (s : Section) : List Slide :=
  let content := s.content
  if (pyStrip content).length < 50 then []
  else
    let key_points := extract_key_points content
    let code_blocks := extract_code_blocks content
    let has_table := content.contains '|' && containsSub ['-', '-', '-'] content
    if allowlist.contains (pyLower s.title) then
      if has_table then [create_table_slide s.title content]
      else
        [Slide.bullets s.title
          (if key_points ≠ [] then key_points else [defaultPoint])]
    else if code_blocks ≠ [] then
      (code_blocks.take 2).map
        (fun cb =>
          Slide.code (s.title ++ (" - ").toList ++ pyTitle cb.language
            ++ (" Code").toList) cb.code)
        ++ (if key_points ≠ [] then [Slide.bullets s.title key_points] else [])
    else if key_points ≠ [] then [Slide.bullets s.title key_points]
    else [Slide.text s.title (previewOf content)]

def defaultTitle : PyStr := ("Helix Tag Manager").toList

def defaultSubtitle : PyStr :=
  ("A powerful Django application for migrating Adobe Helix V1 components to V2").toList

/-- The four code points of the (double-encoded) emoji literal stripped
from the first section's title: U+011F U+0178 U+0161 U+20AC. -/
def rocket : PyStr :=
  [Char.ofNat 0x11F, Char.ofNat 0x178, Char.ofNat 0x161, Char.ofNat 0x20AC]

/-- Python `str.replace(pat, '')` for a nonempty pattern: remove every
(left-to-right, non-overlapping) occurrence (fuel as in `subPairAux`). -/
def removeAllAux (pat : PyStr) : Nat → PyStr → PyStr
  | _, [] => []
  | 0, s => s
  | fuel + 1, c :: t =>
    if pat.isPrefixOf (c :: t) then
      removeAllAux pat fuel ((c :: t).drop pat.length)
    else c :: removeAllAux pat fuel t

def removeAll (pat s : PyStr) : PyStr := removeAllAux pat s.length s

/-- Embeds `generate_ppt_from_readme` (src/ppt.py line 235), reified to the
ordered list of slides appended to the presentation; `none` models the
`return None` taken when no sections were found.  The final `prs.save`
only serializes the accumulated slides and is not part of the plan. -/
def generate_ppt_from_readme (readme_content : PyStr) : Option (List Slide) :=
  let sections := parse_readme_content readme_content
  match sections with
  | [] => none
  | s0 :: _ =>
    let project_title :=
      if s0.title ≠ [] then pyStrip (removeAll rocket s0.title)
      else defaultTitle
    some (Slide.title project_title defaultSubtitle
      :: sections.flatMap planSection)

/-! ### Specification-side descriptions

The definitions below do not embed source code; they state, in a shape
independent of the single-pass folds above, what the claims assert, so
that the claim theorems compare the embedded code against them. -/

/-- Splits a line list at fence lines: with `k` fence lines the result
has `k + 1` segments — the lines before the first fence, the lines
strictly between consecutive fences, and the lines after the last
fence. -/
def splitAtFences : List PyStr → List (List PyStr)
  | [] => [[]]
  | l :: t =>
    if isFenceLine l then [] :: splitAtFences t
    else
      match splitAtFences t with
      | [] => [[l]]
      | h :: r => (l :: h) :: r

/-- From the `k + 1` fence segments, the bodies of the complete
(opened-and-closed) code blocks: the segments at odd positions
1, 3, 5, …, excluding the final segment (which follows the last fence;
when the last fence is an unmatched opener, the odd segment it starts
is thereby dropped). -/
def outBlocks : List (List PyStr) → List (List PyStr)
  | [] => []
  | [_] => []
  | [_, _] => []
  | _ :: s :: b :: r => s :: outBlocks (b :: r)

/-- Helper for the code-block correspondence: the blocks produced when
the scan is currently inside a code block whose already-collected lines
are `cur`. -/
def innB (cur : List PyStr) : List (List PyStr) → List PyStr
  | [] => []
  | [_] => []
  | seg :: b :: r =>
    joinLines (cur ++ seg) :: (outBlocks (b :: r)).map joinLines

/-- The lines the amended segmentation claim says survive into section
bodies: a non-heading line is kept exactly when the nearest preceding
heading line has a non-empty stripped title (`active`); lines before
the first heading, and lines governed by an empty-titled heading, are
dropped.  Heading lines themselves are never kept. -/
def keptLines (active : Bool) : List PyStr → List PyStr
  | [] => []
  | l :: r =>
    if isHeadingLine l then
      keptLines (!(headingTitle l).isEmpty) r
    else if active then l :: keptLines active r
    else keptLines active r

/-! ### Helper lemmas -/

theorem splitAtFences_ne_nil (ls : List PyStr) : splitAtFences ls ≠ [] := by
  cases ls with
  | nil => simp [splitAtFences]
  | cons l t =>
    simp only [splitAtFences]
    split
    · simp
    · split <;> simp

theorem outBlocks_indep (x y : List PyStr) (r : List (List PyStr)) :
    outBlocks (x :: r) = outBlocks (y :: r) := by
  match r with
  | [] => rfl
  | [b] => rfl
  | b :: c :: r2 => rfl

theorem outBlocks_length :
    ∀ segs : List (List PyStr), (outBlocks segs).length = (segs.length - 1) / 2
  | [] => by simp [outBlocks]
  | [_] => by simp [outBlocks]
  | [_, _] => by simp [outBlocks]
  | _ :: s :: b :: r => by
    have ih := outBlocks_length (b :: r)
    simp only [outBlocks, List.length_cons, ih]
    omega

theorem splitAtFences_length (ls : List PyStr) :
    (splitAtFences ls).length = ls.countP isFenceLine + 1 := by
  induction ls with
  | nil => simp [splitAtFences]
  | cons l t ih =>
    simp only [splitAtFences, List.countP_cons]
    split
    · rename_i hf
      simp [ih, hf]
    · rename_i hf
      cases hS : splitAtFences t with
      | nil => exact absurd hS (splitAtFences_ne_nil t)
      | cons h r =>
        simp only [List.length_cons]
        rw [hS] at ih
        simp only [List.length_cons] at ih
        simp [ih, hf]

theorem ecbAux_splitAtFences (ls : List PyStr) :
    (∀ cur lang, ((ecbAux ls false cur lang).map CodeBlock.code)
        = (outBlocks (splitAtFences ls)).map joinLines)
    ∧ (∀ cur lang, ((ecbAux ls true cur lang).map CodeBlock.code)
        = innB cur (splitAtFences ls)) := by
  induction ls with
  | nil =>
    constructor <;> intro cur lang <;> simp [ecbAux, splitAtFences, outBlocks, innB]
  | cons l t ih =>
    obtain ⟨ihA, ihB⟩ := ih
    by_cases hf : isFenceLine l
    · have hsf : splitAtFences (l :: t) = [] :: splitAtFences t := by
        simp [splitAtFences, hf]
      constructor
      · intro cur lang
        have e1 : ecbAux (l :: t) false cur lang = ecbAux t true [] (langOf l) := by
          simp [ecbAux, hf]
        rw [e1, ihB, hsf]
        cases hS : splitAtFences t with
        | nil => exact absurd hS (splitAtFences_ne_nil t)
        | cons h r =>
          cases r with
          | nil => simp [innB, outBlocks]
          | cons b r2 => simp [innB, outBlocks]
      · intro cur lang
        have e2 : ecbAux (l :: t) true cur lang
            = ⟨lang, joinLines cur⟩ :: ecbAux t false [] lang := by
          simp [ecbAux, hf]
        rw [e2, List.map_cons, ihA, hsf]
        cases hS : splitAtFences t with
        | nil => exact absurd hS (splitAtFences_ne_nil t)
        | cons h r =>
          cases r with
          | nil => simp [innB, outBlocks]
          | cons b r2 => simp [innB, outBlocks]
    · cases hS : splitAtFences t with
      | nil => exact absurd hS (splitAtFences_ne_nil t)
      | cons h r =>
        have hsf : splitAtFences (l :: t) = (l :: h) :: r := by
          simp [splitAtFences, hf, hS]
        constructor
        · intro cur lang
          have e3 : ecbAux (l :: t) false cur lang = ecbAux t false cur lang := by
            simp [ecbAux, hf]
          rw [e3, ihA, hsf, hS]
          exact congrArg (List.map joinLines) (outBlocks_indep h (l :: h) r)
        · intro cur lang
          have e5 : ecbAux (l :: t) true cur lang
              = ecbAux t true (cur ++ [l]) lang := by
            simp [ecbAux, hf]
          rw [e5, ihB, hsf, hS]
          cases r with
          | nil => simp [innB]
          | cons b r2 => simp [innB]

theorem parseAux_flat (ls : List PyStr) :
    (∀ acc, ((parseAux ls none acc).flatMap Section.contentLines)
        = keptLines false ls)
    ∧ (∀ acc, ((parseAux ls (some []) acc).flatMap Section.contentLines)
        = keptLines false ls)
    ∧ (∀ acc t, t ≠ [] →
        ((parseAux ls (some t) acc).flatMap Section.contentLines)
          = acc ++ keptLines true ls) := by
  induction ls with
  | nil =>
    refine ⟨fun acc => by simp [parseAux, keptLines],
            fun acc => by simp [parseAux, keptLines],
            fun acc t ht => ?_⟩
    simp [parseAux, keptLines, ht]
  | cons l r ih =>
    obtain ⟨ihN, ihE, ihS⟩ := ih
    by_cases hh : isHeadingLine l
    · by_cases hT : headingTitle l = []
      · have hk : keptLines false (l :: r) = keptLines false r := by
          simp [keptLines, hh, hT]
        have hk2 : keptLines true (l :: r) = keptLines false r := by
          simp [keptLines, hh, hT]
        refine ⟨fun acc => ?_, fun acc => ?_, fun acc t ht => ?_⟩
        · have e : parseAux (l :: r) none acc
              = parseAux r (some (headingTitle l)) [] := by
            simp [parseAux, hh]
          rw [e, hT, ihE, hk]
        · have e : parseAux (l :: r) (some []) acc
              = parseAux r (some (headingTitle l)) [] := by
            simp [parseAux, hh]
          rw [e, hT, ihE, hk]
        · have e : parseAux (l :: r) (some t) acc
              = (⟨t, acc⟩ : Section) :: parseAux r (some (headingTitle l)) [] := by
            simp [parseAux, hh, ht]
          rw [e, hk2]
          simp only [List.flatMap_cons]
          rw [hT, ihE]
      · obtain ⟨a, b, hTl⟩ : ∃ a b, headingTitle l = a :: b := by
          cases h' : headingTitle l with
          | nil => exact absurd h' hT
          | cons a b => exact ⟨a, b, rfl⟩
        have hk : keptLines false (l :: r) = keptLines true r := by
          simp [keptLines, hh, hTl]
        have hk2 : keptLines true (l :: r) = keptLines true r := by
          simp [keptLines, hh, hTl]
        refine ⟨fun acc => ?_, fun acc => ?_, fun acc t ht => ?_⟩
        · have e : parseAux (l :: r) none acc
              = parseAux r (some (headingTitle l)) [] := by
            simp [parseAux, hh]
          rw [e, ihS [] (headingTitle l) hT, hk]
          simp
        · have e : parseAux (l :: r) (some []) acc
              = parseAux r (some (headingTitle l)) [] := by
            simp [parseAux, hh]
          rw [e, ihS [] (headingTitle l) hT, hk]
          simp
        · have e : parseAux (l :: r) (some t) acc
              = (⟨t, acc⟩ : Section) :: parseAux r (some (headingTitle l)) [] := by
            simp [parseAux, hh, ht]
          rw [e, hk2]
          simp only [List.flatMap_cons]
          rw [ihS [] (headingTitle l) hT]
          simp
    · refine ⟨fun acc => ?_, fun acc => ?_, fun acc t ht => ?_⟩
      · have e : parseAux (l :: r) none acc = parseAux r none acc := by
          simp [parseAux, hh]
        rw [e, ihN, keptLines]
        simp [hh]
      · have e : parseAux (l :: r) (some []) acc = parseAux r (some []) acc := by
          simp [parseAux, hh]
        rw [e, ihE, keptLines]
        simp [hh]
      · have e : parseAux (l :: r) (some t) acc
            = parseAux r (some t) (acc ++ [l]) := by
          simp [parseAux, hh, ht]
        rw [e, ihS (acc ++ [l]) t ht, keptLines]
        simp [hh]

theorem parseAux_no_heading (ls : List PyStr)
    (h : ∀ l ∈ ls, isHeadingLine l = false) :
    ∀ acc, parseAux ls none acc = [] := by
  induction ls with
  | nil => intro acc; rfl
  | cons l r ih =>
    intro acc
    have hl : isHeadingLine l = false := h l (by simp)
    have e : parseAux (l :: r) none acc = parseAux r none acc := by
      simp [parseAux, hl]
    rw [e]
    exact ih (fun x hx => h x (by simp [hx])) acc

theorem foldl_collect {α : Type} (f : α → Option PyStr) :
    ∀ (ls : List α) (init : List PyStr),
      ls.foldl (fun acc l => acc ++ (f l).toList) init
        = init ++ ls.filterMap f
  | [], init => by simp
  | l :: ls, init => by
    cases hm : f l <;>
      simp [foldl_collect f ls, hm, List.filterMap_cons]

/-- The two passes of `extract_key_points`, re-expressed: all bullet
matches in source order, then all numbered matches in source order. -/
theorem extract_key_points_raw_eq (content : PyStr) :
    extract_key_points_raw content
      = (pySplitChar '\n' content).filterMap
          (fun l => (bulletMatch l).map cleanPoint)
        ++ (pySplitChar '\n' content).filterMap
          (fun l => (numberedMatch l).map cleanPoint) := by
  simp only [extract_key_points_raw]
  rw [foldl_collect (fun l => (bulletMatch l).map cleanPoint),
    foldl_collect (fun l => (numberedMatch l).map cleanPoint)]
  simp

theorem pySplitChar_ne_nil (sep : Char) (s : PyStr) : pySplitChar sep s ≠ [] := by
  cases s with
  | nil => simp [pySplitChar]
  | cons c t =>
    simp only [pySplitChar]
    split
    · simp
    · split <;> simp

theorem pySplitChar_not_mem (sep : Char) (s : PyStr) (h : sep ∉ s) :
    pySplitChar sep s = [s] := by
  induction s with
  | nil => rfl
  | cons c t ih =>
    have hc : ¬ c = sep := fun e => h (by simp [e])
    have ht : sep ∉ t := fun e => h (by simp [e])
    simp only [pySplitChar, hc, if_false]
    rw [ih ht]

theorem pySplitChar_length (sep : Char) (s : PyStr) :
    (pySplitChar sep s).length = s.count sep + 1 := by
  induction s with
  | nil => simp [pySplitChar]
  | cons c t ih =>
    simp only [pySplitChar]
    by_cases hc : c = sep
    · subst hc
      simp [List.count_cons, ih]
    · cases hS : pySplitChar sep t with
      | nil => exact absurd hS (pySplitChar_ne_nil sep t)
      | cons h r =>
        rw [hS] at ih
        simp only [List.length_cons] at ih
        simp [List.count_cons, hc, ih, Ne.symm hc]

theorem contains_of_count_pos (c : Char) (s : PyStr) (h : 0 < s.count c) :
    s.contains c = true := by
  have hm : c ∈ s := List.count_pos_iff.mp h
  simpa using hm

theorem rowCells_length (l : PyStr) (H : Nat)
    (h : (pySplitChar '|' l).length = H + 2) :
    (rowCells l).length = H := by
  simp [rowCells, h]

theorem tableRowOf_cells (l : PyStr) (H : Nat) (hH : 0 < H)
    (hs : (pySplitChar '|' l).length = H + 2) (hns : isSepLine l = false) :
    tableRowOf l = some (rowCells l) := by
  have hcount : (0 : Nat) < l.count '|' := by
    have := pySplitChar_length '|' l
    omega
  have hc : l.contains '|' = true := contains_of_count_pos '|' l hcount
  have hmem : '|' ∈ l := List.count_pos_iff.mp hcount
  have hne : rowCells l ≠ [] := by
    intro he
    have := rowCells_length l H hs
    rw [he] at this
    simp at this
    omega
  simp [tableRowOf, hc, hns, hne, hmem]

theorem tableRowOf_sep (l : PyStr) (hs : isSepLine l = true) :
    tableRowOf l = none := by
  simp [tableRowOf, hs]

theorem filterMap_eq_map_of_some {α β : Type} (f : α → Option β) (g : α → β)
    (ls : List α) (h : ∀ x ∈ ls, f x = some (g x)) :
    ls.filterMap f = ls.map g := by
  induction ls with
  | nil => rfl
  | cons a t ih =>
    rw [List.filterMap_cons, h a (by simp), List.map_cons,
      ih (fun x hx => h x (by simp [hx]))]

theorem dropWhile_eq_self_of (p : Char → Bool) (s : PyStr)
    (h : ∀ c ∈ s, p c = false) : s.dropWhile p = s := by
  cases s with
  | nil => rfl
  | cons c t => simp [List.dropWhile_cons, h c (by simp)]

theorem pyStrip_of_no_space (s : PyStr) (h : ∀ c ∈ s, pyIsSpace c = false) :
    pyStrip s = s := by
  unfold pyStrip
  rw [dropWhile_eq_self_of _ _ h,
    dropWhile_eq_self_of _ _ (fun c hc => h c (List.mem_reverse.mp hc)),
    List.reverse_reverse]

theorem subPairAux_not_mem (c₀ : Char) (o cls : PyStr) :
    ∀ (fuel : Nat) (s : PyStr), c₀ ∉ s → subPairAux (c₀ :: o) cls fuel s = s := by
  intro fuel s
  induction s generalizing fuel with
  | nil => intro _; cases fuel <;> rfl
  | cons c t ih =>
    intro h
    cases fuel with
    | zero => rfl
    | succ f =>
      have hc : ((c₀ :: o).isPrefixOf (c :: t)) = false := by
        simp only [List.isPrefixOf, Bool.and_eq_false_iff]
        left
        have : c₀ ≠ c := fun e => h (by simp [e])
        simpa using this
      simp only [subPairAux, hc, Bool.false_eq_true, if_false]
      rw [ih f (fun hm => h (by simp [hm]))]

theorem subLinkAux_not_mem :
    ∀ (fuel : Nat) (s : PyStr), '[' ∉ s → subLinkAux fuel s = s := by
  intro fuel s
  induction s generalizing fuel with
  | nil => intro _; cases fuel <;> rfl
  | cons c t ih =>
    intro h
    cases fuel with
    | zero => rfl
    | succ f =>
      have hc : (c = '[') = False := by
        simp only [eq_iff_iff, iff_false]
        exact fun e => h (by simp [e])
      simp only [subLinkAux, hc, if_false]
      rw [ih f (fun hm => h (by simp [hm]))]

theorem bullet_numbered_disjoint (l : PyStr) :
    bulletMatch l = none ∨ numberedMatch l = none := by
  unfold bulletMatch numberedMatch
  cases hd : l.dropWhile pyIsSpace with
  | nil => left; rfl
  | cons c r =>
    by_cases hb : bulletChars.contains c
    · right
      have hmem : c ∈ bulletChars := by simpa using hb
      have hcd : Char.isDigit c = false := by
        simp only [bulletChars, List.mem_cons, List.not_mem_nil, or_false] at hmem
        rcases hmem with rfl | rfl | rfl | rfl | rfl <;> rfl
      simp [hd, List.takeWhile_cons, hcd]
    · left
      simp only [hd]
      rw [if_neg hb]

/-! ### Claim theorems -/

/-- C1 (counterexample): it is not true that the concatenated section
bodies reconstruct every non-heading line of the document exactly once.
In `"pre\n# \nhello\n# A\nx"` the line `pre` precedes the first heading
and is discarded, and the line `hello` is governed by the heading `# `
whose stripped title is empty, so the Python truthiness test
`if current_section:` drops it as well: the bodies reconstruct only
`x`, while the non-heading lines are `pre`, `hello`, `x`. -/
theorem C1_counterexample :
    (parse_readme_content (("pre\n# \nhello\n# A\nx").toList)).flatMap
        Section.contentLines
      ≠ ((pySplitChar '\n' (("pre\n# \nhello\n# A\nx").toList)).filter
          (fun l => !isHeadingLine l)) := by
  decide

/-- C1 (amended): the concatenated section bodies reconstruct, in
order and exactly once, precisely those non-heading lines whose nearest
preceding heading line has a non-empty stripped title (`keptLines`);
lines before the first heading and lines governed by an empty-titled
heading are dropped.  For documents in which every heading has a
non-empty title this is every non-heading line after the first
heading. -/
theorem C1_bodies_reconstruct (content : PyStr) :
    (parse_readme_content content).flatMap Section.contentLines
      = keptLines false (pySplitChar '\n' content) :=
  (parseAux_flat (pySplitChar '\n' content)).1 []

/-- C2 (counterexample): an extracted key point can retain a `*`, a
backtick, and even a literal `[text](url)` form.  The bullet line
`- a*b`c[[d](e)](f)` yields the single point `a*b`c[d](f)`: the lone
star and backtick have no closing partner, and the nested link
`[[d](e)](f)` resolves to the literal link text `[d](f)`. -/
theorem C2_counterexample :
    extract_key_points (("- a*b`c[[d](e)](f)").toList)
        = [("a*b`c[d](f)").toList]
      ∧ '*' ∈ ("a*b`c[d](f)").toList
      ∧ btick ∈ ("a*b`c[d](f)").toList
      ∧ containsSub (("[d](f)").toList) (("a*b`c[d](f)").toList) = true := by
  decide

/-- C2 (amended): `extract_key_points` returns at most 8 points; the
inline-markup clean-up only removes paired/complete markers, so no
character-absence guarantee holds for the returned points. -/
theorem C2_at_most_eight (content : PyStr) :
    (extract_key_points content).length ≤ 8 := by
  simp only [extract_key_points]
  exact List.length_take_le 8 _

/-- C3 (confirmed): splitting the body lines at fence lines, the code
texts returned by `extract_code_blocks` are exactly the odd-indexed
segments that precede the final fence — i.e. the exact lines between
each opening fence and its closing fence, blank lines and whitespace
preserved by `joinLines` — and the number of blocks is the number of
complete fence pairs, `⌊(number of fence lines)/2⌋`; a trailing
unterminated opening fence contributes no block. -/
theorem C3_code_blocks (content : PyStr) :
    ((extract_code_blocks content).map CodeBlock.code)
        = (outBlocks (splitAtFences (pySplitChar '\n' content))).map joinLines
      ∧ (extract_code_blocks content).length
        = ((pySplitChar '\n' content).countP isFenceLine) / 2 := by
  have hA : (extract_code_blocks content).map CodeBlock.code
      = (outBlocks (splitAtFences (pySplitChar '\n' content))).map joinLines :=
    (ecbAux_splitAtFences (pySplitChar '\n' content)).1 [] []
  refine ⟨hA, ?_⟩
  have hlen : (extract_code_blocks content).length
      = ((extract_code_blocks content).map CodeBlock.code).length := by simp
  rw [hlen, hA, List.length_map, outBlocks_length, splitAtFences_length]
  omega

/-- C4 (counterexample): a markdown dash separator written with spaces,
`| --- | --- |`, is not excluded (only lines whose stripped text starts
with `|---` are), so this 2-column table with one data row parses to
three rows including the all-dash separator row, not `R + 1 = 2`. -/
theorem C4_counterexample :
    tableData (("| a | b |\n| --- | --- |\n| x | y |").toList)
      = [[("a").toList, ("b").toList],
         [("---").toList, ("---").toList],
         [("x").toList, ("y").toList]] := by
  decide

/-- C4 (amended): for pipe-delimited table input whose separator row is
written flush (its stripped line starts with `|---`), with `H ≥ 1`
header cells and `R` data rows each splitting into `H` cells, the row
parser returns `R + 1` rows of exactly `H` cells each, the separator
row absent, every cell being the pipe-split fragment trimmed of
whitespace with the fragments before the first and after the last pipe
discarded (`rowCells`). -/
theorem C4_table_rows (input header sepLine : PyStr) (dataRows : List PyStr)
    (H : Nat) (hH : 0 < H)
    (hsplit : pySplitChar '\n' input = header :: sepLine :: dataRows)
    (hhdr : (pySplitChar '|' header).length = H + 2)
    (hhdrsep : isSepLine header = false)
    (hsep : isSepLine sepLine = true)
    (hdata : ∀ l ∈ dataRows,
      (pySplitChar '|' l).length = H + 2 ∧ isSepLine l = false) :
    tableData input = rowCells header :: dataRows.map rowCells
      ∧ (tableData input).length = dataRows.length + 1
      ∧ ∀ row ∈ tableData input, row.length = H := by
  have heq : tableData input = rowCells header :: dataRows.map rowCells := by
    unfold tableData
    rw [hsplit, List.filterMap_cons, tableRowOf_cells header H hH hhdr hhdrsep,
      List.filterMap_cons, tableRowOf_sep sepLine hsep,
      filterMap_eq_map_of_some tableRowOf rowCells dataRows
        (fun l hl => tableRowOf_cells l H hH (hdata l hl).1 (hdata l hl).2)]
  refine ⟨heq, by simp [heq], ?_⟩
  intro row hrow
  rw [heq] at hrow
  rcases List.mem_cons.mp hrow with rfl | hmem
  · exact rowCells_length header H hhdr
  · obtain ⟨l, hl, rfl⟩ := List.mem_map.mp hmem
    exact rowCells_length l H (hdata l hl).1

/-- C4 (witness): the amended theorem applied to the flush-separator
table `| a | b |` / `|---|---|` / `| x | y |` with `H = 2`, `R = 1`. -/
theorem C4_table_rows_witness :
    tableData (("| a | b |\n|---|---|\n| x | y |").toList)
      = [[("a").toList, ("b").toList], [("x").toList, ("y").toList]]
      ∧ (tableData (("| a | b |\n|---|---|\n| x | y |").toList)).length = 2 := by
  have h := C4_table_rows (("| a | b |\n|---|---|\n| x | y |").toList)
    (("| a | b |").toList) (("|---|---|").toList) [("| x | y |").toList] 2
    (by decide) (by decide) (by decide) (by decide) (by decide) (by decide)
  exact ⟨h.1.trans (by decide), h.2.1⟩

/-- C5 (counterexample): for the allow-listed, table-bearing section
`API Endpoints` whose parsed table retains only one row, the conversion
does append a slide that was planned as a table slide — a blank-layout
slide carrying the title but no table grid; no fallback to another
slide type happens. -/
theorem C5_counterexample :
    generate_ppt_from_readme
        (("# API Endpoints\n| a | b |\n|---|---|\nfiller filler filler filler filler filler").toList)
      = some [Slide.title (("API Endpoints").toList) defaultSubtitle,
              Slide.table (("API Endpoints").toList) none]
      ∧ (tableData
          (("| a | b |\n|---|---|\nfiller filler filler filler filler filler").toList)).length
        = 1 := by
  decide

/-- C5 (amended): for every allow-listed, table-bearing section (whose
body passes the 50-character gate) with fewer than two parsed table
rows, `planSection` appends exactly one slide: the table slide with the
section title and no table grid.  The slide itself is not suppressed
and no other slide type is substituted. -/
theorem C5_table_without_grid (sec : Section)
    (h50 : ¬ (pyStrip sec.content).length < 50)
    (hallow : allowlist.contains (pyLower sec.title) = true)
    (htab : (sec.content.contains '|'
      && containsSub ['-', '-', '-'] sec.content) = true)
    (hrows : (tableData sec.content).length ≤ 1) :
    planSection sec = [Slide.table sec.title none] := by
  have hng : ¬ 1 < (tableData sec.content).length := by omega
  have hts := htab
  rw [Bool.and_eq_true] at hts
  have hpipe : '|' ∈ sec.content := by simpa using hts.1
  have hcont : containsSub ['-', '-', '-'] sec.content = true := hts.2
  have hmem : pyLower sec.title ∈ allowlist := by simpa using hallow
  simp [planSection, h50, hmem, hpipe, hcont, create_table_slide, hng]

/-- C5 (witness): the amended theorem applied to the concrete
`API Endpoints` section of the counterexample document. -/
theorem C5_table_without_grid_witness :
    planSection
        ⟨("API Endpoints").toList,
          [("| a | b |").toList, ("|---|---|").toList,
           ("filler filler filler filler filler filler").toList]⟩
      = [Slide.table (("API Endpoints").toList) none] :=
  C5_table_without_grid _ (by decide) (by decide) (by decide) (by decide)

/-- C6 (counterexample): on the empty document the fixed fallback
title/subtitle pair is not used — no title slide is produced at all,
because `generate_ppt_from_readme` bails out with `None` when no
sections were parsed. -/
theorem C6_counterexample : generate_ppt_from_readme [] = none := by
  decide

/-- C6 (amended): whenever the document parses to at least one section,
the deck starts with a title slide whose title is the first section's
title with every occurrence of the decorative emoji glyph removed and
the result stripped — the fixed fallback title being used only when the
first section's title is empty — and whose subtitle is always the fixed
Django subtitle (it is never seeded from the document).  An empty
document yields no deck at all. -/
theorem C6_title_seeding (content : PyStr) (s0 : Section)
    (rest : List Section)
    (h : parse_readme_content content = s0 :: rest) :
    generate_ppt_from_readme content
      = some (Slide.title
          (if s0.title ≠ [] then pyStrip (removeAll rocket s0.title)
           else defaultTitle)
          defaultSubtitle
        :: (s0 :: rest).flatMap planSection) := by
  simp only [generate_ppt_from_readme, h]

/-- C6 (witness): the amended theorem applied to `"# My Project\nbody"`,
whose single short section yields no content slide, so the deck is
exactly the seeded title slide with the fixed subtitle. -/
theorem C6_title_seeding_witness :
    generate_ppt_from_readme (("# My Project\nbody").toList)
      = some [Slide.title (("My Project").toList) defaultSubtitle] := by
  rw [C6_title_seeding (("# My Project\nbody").toList)
    ⟨("My Project").toList, [("body").toList]⟩ [] (by decide)]
  decide

/-- C7 (code bug): the claim says the stored heading level equals the
depth of the heading marker (1 for `#`, 2 for `##`), but the source
computes `current_section.count('#')` on the title from which all
leading and trailing `#` were already stripped, so the level is 0 for
both `# Hello` and `## World`. -/
theorem C7_level_is_zero :
    (parse_readme_content (("# Hello").toList)).map Section.level = [0]
      ∧ (parse_readme_content (("## World").toList)).map Section.level = [0] := by
  decide

/-- C8 (confirmed): a document none of whose lines is a heading line
parses to no sections, and `generate_ppt_from_readme` then returns the
failure indicator `none` — no slide is appended and nothing is saved. -/
theorem C8_no_headings_fails (content : PyStr)
    (h : ∀ l ∈ pySplitChar '\n' content, isHeadingLine l = false) :
    generate_ppt_from_readme content = none := by
  have hp : parse_readme_content content = [] :=
    parseAux_no_heading (pySplitChar '\n' content) h []
  simp [generate_ppt_from_readme, hp]

/-- C8 (witness): the theorem applied to a two-line document with no
heading lines. -/
theorem C8_no_headings_fails_witness :
    generate_ppt_from_readme (("hello world\nno headings here").toList) = none :=
  C8_no_headings_fails (("hello world\nno headings here").toList) (by decide)

/-- C9 (confirmed): before the truncation to 8, the gathered key points
are all bullet-pattern matches in source order followed by all
numbered-pattern matches in source order (the two styles are never
interleaved by source position); moreover no line matches both patterns
(a bullet glyph is not a digit), and `extract_key_points` is exactly
this list truncated to 8. -/
theorem C9_bullets_then_numbered (content : PyStr) :
    extract_key_points_raw content
        = (pySplitChar '\n' content).filterMap
            (fun l => (bulletMatch l).map cleanPoint)
          ++ (pySplitChar '\n' content).filterMap
            (fun l => (numberedMatch l).map cleanPoint)
      ∧ (∀ l : PyStr, bulletMatch l = none ∨ numberedMatch l = none)
      ∧ extract_key_points content = (extract_key_points_raw content).take 8 :=
  ⟨extract_key_points_raw_eq content, bullet_numbered_disjoint, rfl⟩

/-- C10 (confirmed): a line of `n ≥ 2` hyphens (markdown horizontal
rule, or a table separator without its leading pipe) matches the bullet
pattern — the first hyphen is the bullet glyph, `\s*` matches nothing,
and `(.+)` captures the rest — so `extract_key_points` returns the
single point of `n - 1` hyphens. -/
theorem C10_hyphen_run (n : Nat) (h : 2 ≤ n) :
    extract_key_points (List.replicate n '-') = [List.replicate (n - 1) '-'] := by
  obtain ⟨m, rfl⟩ : ∃ m, n = m + 2 := ⟨n - 2, by omega⟩
  have hnd : ('-' : Char) ∉ ([] : PyStr) := by simp
  have hds : pyIsSpace '-' = false := by decide
  have hline : pySplitChar '\n' (List.replicate (m + 2) '-')
      = [List.replicate (m + 2) '-'] :=
    pySplitChar_not_mem '\n' _ (by
      intro hmem
      exact absurd (List.eq_of_mem_replicate hmem) (by decide))
  have hdrop : ∀ k, (List.replicate (k + 1) '-').dropWhile pyIsSpace
      = List.replicate (k + 1) '-' := by
    intro k
    rw [List.replicate_succ]
    simp [List.dropWhile_cons, hds]
  have hbm : bulletMatch (List.replicate (m + 2) '-')
      = some (List.replicate (m + 1) '-') := by
    unfold bulletMatch
    rw [hdrop (m + 1), List.replicate_succ]
    have hcontains : bulletChars.contains '-' = true := by decide
    simp only [hcontains, if_true]
    unfold tailGroup
    rw [hdrop m, List.replicate_succ]
  have hnm : numberedMatch (List.replicate (m + 2) '-') = none := by
    unfold numberedMatch
    rw [hdrop (m + 1), List.replicate_succ]
    simp [List.takeWhile_cons]
  have hnomem : ∀ (c : Char), c ≠ '-' → c ∉ List.replicate (m + 1) '-' := by
    intro c hc hmem
    exact hc (List.eq_of_mem_replicate hmem)
  have hclean : cleanPoint (List.replicate (m + 1) '-')
      = List.replicate (m + 1) '-' := by
    unfold cleanPoint
    rw [pyStrip_of_no_space _ (by
      intro c hc
      rw [List.eq_of_mem_replicate hc]
      decide)]
    rw [show subPair ['*', '*'] ['*', '*'] (List.replicate (m + 1) '-')
        = List.replicate (m + 1) '-' from
      subPairAux_not_mem '*' ['*'] ['*', '*'] _ _ (hnomem '*' (by decide))]
    rw [show subPair ['*'] ['*'] (List.replicate (m + 1) '-')
        = List.replicate (m + 1) '-' from
      subPairAux_not_mem '*' [] ['*'] _ _ (hnomem '*' (by decide))]
    rw [show subPair [btick] [btick] (List.replicate (m + 1) '-')
        = List.replicate (m + 1) '-' from
      subPairAux_not_mem btick [] [btick] _ _ (hnomem btick (by decide))]
    exact subLinkAux_not_mem _ _ (hnomem '[' (by decide))
  unfold extract_key_points
  rw [extract_key_points_raw_eq, hline]
  simp only [List.filterMap_cons, List.filterMap_nil, hbm, hnm, Option.map_some',
    Option.map_none']
  simp [hclean]

/-- C10 (witness): the theorem applied at `n = 3`: the line `---`
yields the single point `--`. -/
theorem C10_hyphen_run_witness :
    2 ≤ 3
      ∧ extract_key_points (List.replicate 3 '-') = [List.replicate 2 '-'] :=
  ⟨by decide, C10_hyphen_run 3 (by decide)⟩

end Ppt

